import Mathlib

/-!
Shallow embedding of `src/root/usr/bin/transcoder.py` (a video transcode
daemon) and verification of its specification claims.

Python strings are modelled as `List Char`, Python ints as `Int` (or `Nat`
where the source can only produce digits), timestamps as `Rat`, raised
exceptions as `Except` / `Option` results, and the mutable daemon state as
explicit state passing. External tool invocations are modelled by an
explicit outcome value (exit status plus captured output), since the tools
themselves are outside the program.
-/

namespace Transcoder

/-! ## `Transcoder.non_zero_min` (transcoder.py lines 375-383)

```python
if not values:
    raise TypeError(...)
non_zero_values = [i for i in values if i != 0]
if non_zero_values:
    return min(non_zero_values)
return 0
```

The raised `TypeError` is modelled as `none`; Python `min` over a
non-empty list is `foldl min` over head and tail. -/

def non_zero_min (values : List Int) : Option Int :=
  if values.isEmpty then none
  else
    let non_zero_values := values.filter (fun i => i ≠ 0)
    match non_zero_values with
    | [] => some 0
    | x :: xs => some (xs.foldl min x)

/-! ## Regex `[0-9]+:[0-9]+:[0-9]+:[0-9]+` and `re.findall`
(transcoder.py lines 386, 395, 403)

The pattern has no backtracking freedom: each `[0-9]+` is a maximal digit
run (a shorter run would be followed by a digit, never by `:`), so one
match attempt is four maximal digit runs separated by literal colons.
`re.findall` scans left to right, emitting non-overlapping matches and
advancing by one character after a failed attempt. -/

def takeDigits (s : List Char) : List Char × List Char :=
  (s.takeWhile Char.isDigit, s.dropWhile Char.isDigit)

/-- One `[0-9]+:` group of the crop pattern: a non-empty maximal digit run
followed by a literal colon. Returns the digits and the rest after the
colon. -/
def digitsColon (s : List Char) : Option (List Char × List Char) :=
  let d := s.takeWhile Char.isDigit
  if d.isEmpty then none
  else
    match s.dropWhile Char.isDigit with
    | ':' :: r => some (d, r)
    | _ => none

/-- Attempt to match the crop regex at the start of `s`; on success return
the matched token text and the remaining input. -/
def matchCrop (s : List Char) : Option (List Char × List Char) := do
  let (d1, r1) ← digitsColon s
  let (d2, r2) ← digitsColon r1
  let (d3, r3) ← digitsColon r2
  let (d4, r4) := takeDigits r3
  if d4.isEmpty then none
  else some (d1 ++ ':' :: (d2 ++ ':' :: (d3 ++ ':' :: d4)), r4)

/-- `re.findall` scan with explicit fuel (one unit per input position; a
successful match always consumes at least one character, so
`fuel = s.length` never runs out — `findCrops_eq` below proves the
fuel-free unfolding). -/
def findCropsAux : Nat → List Char → List (List Char)
  | 0, _ => []
  | _ + 1, [] => []
  | fuel + 1, c :: rest =>
    match matchCrop (c :: rest) with
    | some (m, r) => m :: findCropsAux fuel r
    | none => findCropsAux fuel rest

/-- Python re.findall of the crop pattern over the whole input. -/
def findCrops (s : List Char) : List (List Char) :=
  findCropsAux s.length s

/-- Python `s.split(':')`. -/
def splitColon : List Char → List (List Char)
  | [] => [[]]
  | c :: rest =>
    if c = ':' then [] :: splitColon rest
    else
      match splitColon rest with
      | [] => [[c]]
      | g :: gs => (c :: g) :: gs

/-- Python `int()` on a digit-only string. -/
def parseNat (s : List Char) : Nat :=
  s.foldl (fun n c => 10 * n + (c.toNat - '0'.toNat)) 0

/-- Python `str()` on an int. -/
def intStr (n : Int) : List Char :=
  if n < 0 then '-' :: Nat.toDigits 10 (-n).toNat
  else Nat.toDigits 10 n.toNat

/-- Python `zip(*rows)`: transpose truncated to the shortest row
(`zip()` of an empty argument list is empty). -/
def pyZip {α : Type} (rows : List (List α)) : List (List α) :=
  match (rows.map List.length).min? with
  | none => []
  | some n => (List.range n).map (fun i => rows.filterMap (fun r => r.get? i))

/-- A Python list comprehension `[f(x) for x in xs]` where `f` may raise
(modelled by `Option`): the first raise aborts the whole comprehension. -/
def traverseOption {α β : Type} (f : α → Option β) : List α → Option (List β)
  | [] => some []
  | x :: xs =>
    match f x, traverseOption f xs with
    | some y, some ys => some (y :: ys)
    | _, _ => none

/-! ## `Transcoder.detect_crop` (transcoder.py lines 385-413) -/

/-- Outcome of one external tool invocation: `ok` carries the captured
output of a zero exit; `err` carries the captured output attached to the
`ChildProcessError` of a non-zero exit. -/
inductive ExecResult : Type
  | ok (out : List Char)
  | err (captured : List Char)
deriving DecidableEq, Repr

/-- Which branch of `detect_crop` produced the returned value: the plain
parse after a successful tool run, the recovery parse of the captured
output of a failed tool run, or the no-tokens fallback of a failed run. -/
inductive CropPath : Type
  | normal
  | recovered
  | fallback
deriving DecidableEq, Repr

inductive CropError : Type
  /-- the TypeError escaping from `non_zero_min` (unreachable here). -/
  | cropTypeError
  /-- the TranscodeError raised when the joined crop string is empty. -/
  | cropUndetermined
deriving DecidableEq, Repr

/-- Lines 403-409:
```python
dimensions = zip(*[map(int, c.split(':')) for c in crops])
crop = ':'.join(map(str, [self.non_zero_min(piece) for piece in dimensions]))
```
factored over the already-parsed integer rows. -/
def reduce_crops (rows : List (List Int)) : Option (List Int) :=
  traverseOption non_zero_min (pyZip rows)

/-- The shared tail of `detect_crop` (lines 403-413), parsing crop tokens
out of `out`; the `CropPath` tag records which branch supplied `out`. -/
def detect_crop_parse (out : List Char) (path : CropPath) :
    Except CropError (List Char × CropPath) :=
  let crops := findCrops out
  if crops.isEmpty then .ok ("0:0:0:0".data, path)
  else
    let rows := crops.map (fun c => (splitColon c).map (fun d => (parseNat d : Int)))
    match reduce_crops rows with
    | none => .error .cropTypeError
    | some mins =>
      let crop := List.intercalate [':'] (mins.map intStr)
      if crop.isEmpty then .error .cropUndetermined
      else .ok (crop, path)

/-- Function `Transcoder.detect_crop` of the crop tool invocation
outcome (lines 385-413). -/
def detect_crop (r : ExecResult) : Except CropError (List Char × CropPath) :=
  match r with
  | .ok out => detect_crop_parse out .normal
  | .err captured =>
    if (findCrops captured).isEmpty then .ok ("0:0:0:0".data, .fallback)
    else detect_crop_parse captured .recovered

/-! ## `Transcoder.scan_media` (transcoder.py lines 355-373) -/

/-- Python substring containment `needle in hay`. -/
def containsSub (needle hay : List Char) : Bool :=
  match hay with
  | [] => needle.isEmpty
  | _ :: rest => needle.isPrefixOf hay || containsSub needle rest

inductive ScanError : Type
  /-- the not-a-usable-media-file TranscodeError (probe mode). -/
  | notUsableMedia
  /-- the unknown-media-type TranscodeError. -/
  | unknownMediaType
  /-- the unknown-metadata TranscodeError. -/
  | unknownMetadataError
deriving DecidableEq, Repr

/-- Function `Transcoder.scan_media` of the probe flag and the scan
tool invocation outcome. The scan runs with merged output channels, so the
`stderr` attribute read by the handler equals the captured output. -/
def scan_media (test_media_file : Bool) (result : ExecResult) :
    Except ScanError (List Char) :=
  match result with
  | .ok out => .ok out
  | .err captured =>
    if test_media_file then .error .notUsableMedia
    else if containsSub "unrecognized file type".data captured then
      .error .unknownMediaType
    else .error .unknownMetadataError

/-! ## `Transcoder.parse_audio_tracks` selection loop
(transcoder.py lines 471-498) -/

/-- One parsed audio stream (the source dict with keys title, lang and
default; a stream with no bracketed language code gets the empty string
as `lang` from the non-participating regex group). -/
structure AudioStream : Type where
  title : List Char
  lang : List Char
  is_default : Bool
deriving DecidableEq, Repr

/-- One parsed track-list entry (the source dict with keys number and title). -/
structure AudioTrack : Type where
  number : List Char
  title : List Char
deriving DecidableEq, Repr

/-- Line 484: the lowercased language code is one of english, eng, en, or
the empty string (the value a stream without language metadata gets). -/
def is_english_lang (lang : List Char) : Bool :=
  let l := lang.map Char.toLower
  l == "english".data || l == "eng".data || l == "en".data || l == []

/-- Line 495: remove every double-quote character from the title. -/
def stripQuotes (t : List Char) : List Char :=
  t.filter (fun c => c ≠ '"')

/-- Line 497: the formatted add-audio directive, number plus quoted title. -/
def mkDirective (number title : List Char) : List Char :=
  "--add-audio ".data ++ number ++ "=\"".data ++ title ++ "\"".data

/-- The `for i, track in enumerate(tracks)` loop body (lines 476-497),
with `i` threaded explicitly. `streams[i]` is total in the source because
it is only evaluated when `use_stream_titles` holds, i.e. when the lists
have equal length and `i < len(streams)`; the default value of `getD` is
therefore never read. -/
def selectAux (use_stream_titles : Bool) (streams : List AudioStream)
    (require_english : Bool) : Nat → List AudioTrack → List (List Char)
  | _, [] => []
  | i, track :: rest =>
    if use_stream_titles then
      let s := streams.getD i ⟨[], [], false⟩
      if s.is_default then
        selectAux use_stream_titles streams require_english (i + 1) rest
      else if require_english && !is_english_lang s.lang then
        selectAux use_stream_titles streams require_english (i + 1) rest
      else
        let title := if s.title.isEmpty then track.title else s.title
        mkDirective track.number (stripQuotes title) ::
          selectAux use_stream_titles streams require_english (i + 1) rest
    else if i == 0 then
      selectAux use_stream_titles streams require_english (i + 1) rest
    else
      mkDirective track.number (stripQuotes track.title) ::
        selectAux use_stream_titles streams require_english (i + 1) rest

/-- The selection part of `parse_audio_tracks` (lines 471-498), from the
two parsed lists and the `require_english` config flag to the list of
`--add-audio` directives. -/
def select_audio_tracks (streams : List AudioStream) (tracks : List AudioTrack)
    (require_english : Bool) : List (List Char) :=
  let use_stream_titles := streams.length == tracks.length
  selectAux use_stream_titles streams require_english 0 tracks

/-- Line 498: the directives joined with single spaces. -/
def parse_audio_tracks (streams : List AudioStream) (tracks : List AudioTrack)
    (require_english : Bool) : List Char :=
  List.intercalate " ".data (select_audio_tracks streams tracks require_english)

/-! ## `Transcoder.check_for_input` (transcoder.py lines 278-327) -/

/-- Line 298: the settle-window skip test, true when the file age
(current time minus last-modified time) is at most the configured
write_waiting_threshold. -/
def file_settle_skip (now mtime threshold : ℚ) : Bool :=
  decide (now - mtime ≤ threshold)

/-- A file passes discovery iff it is not skipped by the settle window. -/
def file_eligible (now mtime threshold : ℚ) : Bool :=
  !file_settle_skip now mtime threshold

/-- Line 294: the filename starts with a dot. -/
def is_dotfile (name : List Char) : Bool :=
  match name with
  | '.' :: _ => true
  | _ => false

/-- How processing one discovered file ends, abstracting the external
tools and the per-file pipeline body:
`notMedia` — the probe `scan_media(test_media_file=True)` raises
`TranscodeError`; `transcodeOk` — `process_input` returns;
`transcodeError` / `otherError` — `process_input` raises a
`TranscodeError` / any other exception, with `running` the value of the
daemon flag observed by the handler. -/
inductive ProcessOutcome : Type
  | notMedia
  | transcodeOk
  | transcodeError (running : Bool)
  | otherError (running : Bool)
deriving DecidableEq, Repr

/-- One file met by the discovery walk, with the data the pass inspects. -/
structure FileEntry : Type where
  name : List Char
  mtime : ℚ
  outcome : ProcessOutcome
deriving DecidableEq, Repr

/-- A `move_file` call issued by the discovery pass, by destination role. -/
inductive FileAction : Type
  | moveToOutput (f : FileEntry)
  | moveToFailed (f : FileEntry)
  | moveToSuccessful (f : FileEntry)
deriving DecidableEq, Repr

def FileAction.file : FileAction → FileEntry
  | .moveToOutput f => f
  | .moveToFailed f => f
  | .moveToSuccessful f => f

/-- One discovery pass (lines 278-327) over the walked files of all
configured profiles, flattened in visit order: returns the pass boolean
and the `move_file` relocations performed. All exceptions of the per-file
body are caught inside the pass, so the pass itself always returns. -/
def check_for_input (now threshold : ℚ) : List FileEntry → Bool × List FileAction
  | [] => (false, [])
  | f :: rest =>
    if is_dotfile f.name then check_for_input now threshold rest
    else if file_settle_skip now f.mtime threshold then
      check_for_input now threshold rest
    else
      match f.outcome with
      | .notMedia =>
        let r := check_for_input now threshold rest
        (r.1, .moveToOutput f :: r.2)
      | .transcodeOk => (true, [.moveToSuccessful f])
      | .transcodeError running =>
        if running then (true, [.moveToFailed f]) else (false, [])
      | .otherError running =>
        if running then (true, [.moveToFailed f]) else (false, [])

/-- False iff the probe classified the file as non-media. -/
def probe_passes : ProcessOutcome → Bool
  | .notMedia => false
  | _ => true

/-- A file the pass would actually hand to the transcode pipeline: not a
dotfile, outside the settle window, and accepted by the media probe. -/
def media_candidate (now threshold : ℚ) (f : FileEntry) : Bool :=
  !is_dotfile f.name && !file_settle_skip now f.mtime threshold
    && probe_passes f.outcome

/-- Whether processing a media file makes the pass return `True`. -/
def outcome_returns_true : ProcessOutcome → Bool
  | .notMedia => false
  | .transcodeOk => true
  | .transcodeError running => running
  | .otherError running => running

/-! ## `Transcoder.execute` and `Transcoder.stop`
(transcoder.py lines 197-229) -/

/-- The state read and written by the process runner: the tracked
`self.current_proc` handle (`none` = Python `None`). -/
structure RunnerState : Type where
  current_proc : Option Nat
deriving DecidableEq, Repr

/-- How one `execute` call unfolds: `spawnFailure` — `subprocess.Popen`
itself raises, before any process exists; `completes pid rc out` — the
child `pid` runs to completion with exit status `rc` and captured output
`out`. -/
inductive ExecEvent : Type
  | spawnFailure
  | completes (pid : Nat) (returncode : Int) (stdout : List Char)
deriving DecidableEq, Repr

inductive ExecFailure : Type
  /-- the Popen exception propagating out of `execute`. -/
  | spawnError
  /-- the ChildProcessError carrying exit status, command and output. -/
  | childProcessError (returncode : Int) (command stdout : List Char)
deriving DecidableEq, Repr

/-- Function `Transcoder.execute` (lines 218-229). The `try` body assigns
`self.current_proc`, waits, and raises on a non-zero exit; the `finally`
clause resets `current_proc` to `None` on every exit path. -/
def execute (s : RunnerState) (command : List Char) (ev : ExecEvent) :
    RunnerState × Except ExecFailure (List Char) :=
  let body : RunnerState × Except ExecFailure (List Char) :=
    match ev with
    | .spawnFailure => (s, .error .spawnError)
    | .completes pid rc out =>
      let s1 : RunnerState := { current_proc := some pid }
      if rc ≠ 0 then (s1, .error (.childProcessError rc command out))
      else (s1, .ok out)
  ({ current_proc := none }, body.2)

/-- The process terminations requested by `Transcoder.stop`
(lines 197-210): none when the daemon is already stopped (the repeat-signal
guard returns early), otherwise the tracked current process if one exists. -/
def stop_terminations (running : Bool) (s : RunnerState) : List Nat :=
  if !running then []
  else
    match s.current_proc with
    | some p => [p]
    | none => []

end Transcoder

open Transcoder

/-! ## Helper lemmas about `foldl min` (the shape of Python `min` on a
non-empty list, and of `List.min?`) -/

theorem foldl_min_mem {α : Type} [LinearOrder α] (xs : List α) (x : α) :
    xs.foldl min x = x ∨ xs.foldl min x ∈ xs := by
  induction xs generalizing x with
  | nil => left; rfl
  | cons a as ih =>
    rcases ih (min x a) with h | h
    · rcases min_choice x a with hm | hm
      · left; rw [List.foldl_cons, h, hm]
      · right; rw [List.foldl_cons, h, hm]; exact List.mem_cons_self a as
    · right; exact List.mem_cons_of_mem a h

theorem foldl_min_le_init {α : Type} [LinearOrder α] (xs : List α) (x : α) :
    xs.foldl min x ≤ x := by
  induction xs generalizing x with
  | nil => exact le_refl x
  | cons a as ih =>
    calc (a :: as).foldl min x = as.foldl min (min x a) := rfl
    _ ≤ min x a := ih (min x a)
    _ ≤ x := min_le_left x a

theorem foldl_min_le_mem {α : Type} [LinearOrder α] (xs : List α) (x : α) :
    ∀ y ∈ xs, xs.foldl min x ≤ y := by
  induction xs generalizing x with
  | nil => intro y hy; cases hy
  | cons a as ih =>
    intro y hy
    rcases List.mem_cons.mp hy with rfl | hy
    · calc (y :: as).foldl min x = as.foldl min (min x y) := rfl
      _ ≤ min x y := foldl_min_le_init as (min x y)
      _ ≤ y := min_le_right x y
    · exact ih (min x a) y hy

/-! ## Characterization of `non_zero_min` (shared by several claims) -/

theorem non_zero_min_char (values : List Int) :
    (values = [] → non_zero_min values = none) ∧
    ((∃ x ∈ values, x ≠ 0) →
      ∃ m, non_zero_min values = some m ∧ m ∈ values ∧ m ≠ 0 ∧
        ∀ y ∈ values, y ≠ 0 → m ≤ y) ∧
    (values ≠ [] → (∀ x ∈ values, x = 0) → non_zero_min values = some 0) := by
  refine ⟨?_, ?_, ?_⟩
  · intro h; subst h; rfl
  · rintro ⟨x, hx, hx0⟩
    have hne : values.isEmpty = false := by
      cases values with
      | nil => cases hx
      | cons a as => rfl
    have hxf : x ∈ values.filter (fun i => i ≠ 0) :=
      List.mem_filter.mpr ⟨hx, by simpa using hx0⟩
    unfold non_zero_min
    rw [hne]
    simp only [Bool.false_eq_true, if_false]
    cases hfil : values.filter (fun i => i ≠ 0) with
    | nil => rw [hfil] at hxf; cases hxf
    | cons z zs =>
      refine ⟨zs.foldl min z, rfl, ?_, ?_, ?_⟩
      · have hmem : zs.foldl min z ∈ z :: zs := by
          rcases foldl_min_mem zs z with h | h
          · rw [h]; exact List.mem_cons_self z zs
          · exact List.mem_cons_of_mem z h
        have : zs.foldl min z ∈ values.filter (fun i => i ≠ 0) := by
          rw [hfil]; exact hmem
        exact (List.mem_filter.mp this).1
      · have hmem : zs.foldl min z ∈ z :: zs := by
          rcases foldl_min_mem zs z with h | h
          · rw [h]; exact List.mem_cons_self z zs
          · exact List.mem_cons_of_mem z h
        have : zs.foldl min z ∈ values.filter (fun i => i ≠ 0) := by
          rw [hfil]; exact hmem
        simpa using (List.mem_filter.mp this).2
      · intro y hy hy0
        have hyf : y ∈ z :: zs := by
          rw [← hfil]; exact List.mem_filter.mpr ⟨hy, by simpa using hy0⟩
        rcases List.mem_cons.mp hyf with rfl | hyf
        · exact foldl_min_le_init zs y
        · exact foldl_min_le_mem zs z y hyf
  · intro hne hall
    have hisne : values.isEmpty = false := by
      cases values with
      | nil => exact absurd rfl hne
      | cons a as => rfl
    have hfil : values.filter (fun i => i ≠ 0) = [] := by
      rw [List.filter_eq_nil_iff]
      intro a ha
      simpa using hall a ha
    unfold non_zero_min
    rw [hisne]
    simp only [Bool.false_eq_true, if_false, hfil]

/-- C1: for every non-empty integer sequence, `non_zero_min` returns the
minimum of the non-zero elements when at least one element is non-zero
(the result is a non-zero member of the sequence that is `≤` every
non-zero member), returns `0` when every element is `0`, and signals an
error (modelled as `none`) exactly on the empty sequence. -/
theorem non_zero_min_spec (values : List Int) :
    (values = [] → non_zero_min values = none) ∧
    ((∃ x ∈ values, x ≠ 0) →
      ∃ m, non_zero_min values = some m ∧ m ∈ values ∧ m ≠ 0 ∧
        ∀ y ∈ values, y ≠ 0 → m ≤ y) ∧
    (values ≠ [] → (∀ x ∈ values, x = 0) → non_zero_min values = some 0) :=
  non_zero_min_char values

/-- C1 witness: instantiation on `[4, 0, 2]` (non-zero minimum `2` exists)
and on `[0, 0]` (all-zero, result `0`). -/
theorem non_zero_min_spec_witness :
    (∃ m, non_zero_min [(4 : Int), 0, 2] = some m ∧ m ∈ [(4 : Int), 0, 2] ∧
      m ≠ 0 ∧ ∀ y ∈ [(4 : Int), 0, 2], y ≠ 0 → m ≤ y) ∧
    non_zero_min [(0 : Int), 0] = some 0 :=
  ⟨(non_zero_min_spec [4, 0, 2]).2.1 ⟨4, by decide, by decide⟩,
   (non_zero_min_spec [0, 0]).2.2 (by decide) (by decide)⟩

/-! ## Lemmas about the crop token scanner -/

theorem digitsColon_length_lt {s d r : List Char}
    (h : digitsColon s = some (d, r)) : r.length < s.length := by
  have hlen : (s.takeWhile Char.isDigit).length
      + (s.dropWhile Char.isDigit).length = s.length := by
    rw [← List.length_append, List.takeWhile_append_dropWhile]
  unfold digitsColon at h
  by_cases hd : (s.takeWhile Char.isDigit).isEmpty
  · simp only [hd, if_true] at h
    exact Option.noConfusion h
  · simp only [hd, Bool.false_eq_true, if_false] at h
    split at h
    next r' heq =>
      simp only [Option.some.injEq, Prod.mk.injEq] at h
      obtain ⟨-, hr⟩ := h
      subst hr
      rw [heq] at hlen
      simp only [List.length_cons] at hlen
      omega
    next => exact Option.noConfusion h

theorem matchCrop_length_lt {s m r : List Char}
    (h : matchCrop s = some (m, r)) : r.length < s.length := by
  unfold matchCrop at h
  cases h1 : digitsColon s with
  | none => rw [h1] at h; exact absurd h (by simp [Option.bind])
  | some p1 =>
    obtain ⟨d1, r1⟩ := p1
    rw [h1] at h
    simp only [Option.bind_eq_bind, Option.some_bind] at h
    cases h2 : digitsColon r1 with
    | none => rw [h2] at h; exact absurd h (by simp)
    | some p2 =>
      obtain ⟨d2, r2⟩ := p2
      rw [h2] at h
      simp only [Option.some_bind] at h
      cases h3 : digitsColon r2 with
      | none => rw [h3] at h; exact absurd h (by simp)
      | some p3 =>
        obtain ⟨d3, r3⟩ := p3
        rw [h3] at h
        simp only [Option.some_bind] at h
        by_cases h4 : (r3.takeWhile Char.isDigit).isEmpty
        · simp only [takeDigits, h4, if_true] at h
          exact Option.noConfusion h
        · simp only [takeDigits, h4, Bool.false_eq_true, if_false,
            Option.some.injEq, Prod.mk.injEq] at h
          have hr : r = r3.dropWhile Char.isDigit := h.2.symm
          subst hr
          have hr3 : (r3.dropWhile Char.isDigit).length ≤ r3.length := by
            have : (r3.takeWhile Char.isDigit).length
                + (r3.dropWhile Char.isDigit).length = r3.length := by
              rw [← List.length_append, List.takeWhile_append_dropWhile]
            omega
          have l1 := digitsColon_length_lt h1
          have l2 := digitsColon_length_lt h2
          have l3 := digitsColon_length_lt h3
          omega

theorem findCropsAux_fuel_irrelevant :
    ∀ (f g : Nat) (s : List Char), s.length ≤ f → s.length ≤ g →
      findCropsAux f s = findCropsAux g s := by
  intro f
  induction f with
  | zero =>
    intro g s hf _
    have : s = [] := List.length_eq_zero.mp (Nat.le_zero.mp hf)
    subst this
    cases g <;> rfl
  | succ f ih =>
    intro g s hf hg
    cases s with
    | nil => cases g <;> rfl
    | cons c cs =>
      cases g with
      | zero => simp at hg
      | succ g' =>
        cases hm : matchCrop (c :: cs) with
        | some p =>
          obtain ⟨m, r⟩ := p
          have hr : r.length < (c :: cs).length := matchCrop_length_lt hm
          simp only [List.length_cons] at hr hf hg
          simp only [findCropsAux, hm]
          rw [ih g' r (by omega) (by omega)]
        | none =>
          simp only [findCropsAux, hm]
          simp only [List.length_cons] at hf hg
          exact ih g' cs (by omega) (by omega)

/-- The fuel-free unfolding of `findCrops`: it is exactly the
`re.findall` scan — match at the current position and continue after the
match, otherwise advance one character. -/
theorem findCrops_eq (s : List Char) :
    findCrops s =
      match s with
      | [] => []
      | c :: rest =>
        match matchCrop (c :: rest) with
        | some (m, r) => m :: findCrops r
        | none => findCrops rest := by
  cases s with
  | nil => rfl
  | cons c rest =>
    cases hm : matchCrop (c :: rest) with
    | some p =>
      obtain ⟨m, r⟩ := p
      have hr : r.length < (c :: rest).length := matchCrop_length_lt hm
      simp only [List.length_cons] at hr
      simp only [findCrops, List.length_cons, findCropsAux, hm]
      rw [findCropsAux_fuel_irrelevant rest.length r.length r (by omega) le_rfl]
    | none =>
      simp only [findCrops, List.length_cons, findCropsAux, hm]

/-! ## Support lemmas for the crop pipeline -/

theorem splitColon_ne_nil (s : List Char) : splitColon s ≠ [] := by
  induction s with
  | nil => simp [splitColon]
  | cons c rest ih =>
    by_cases hc : c = ':'
    · simp [splitColon, hc]
    · simp only [splitColon, hc, if_false]
      cases splitColon rest with
      | nil => simp
      | cons g gs => simp

theorem non_zero_min_isSome (l : List Int) (h : l ≠ []) :
    ∃ m, non_zero_min l = some m := by
  have hemp : l.isEmpty = false := by
    cases l with
    | nil => exact absurd rfl h
    | cons a as => rfl
  unfold non_zero_min
  rw [hemp]
  simp only [Bool.false_eq_true, if_false]
  cases l.filter (fun i => i ≠ 0) with
  | nil => exact ⟨0, rfl⟩
  | cons x xs => exact ⟨xs.foldl min x, rfl⟩

theorem traverseOption_all_some {α β : Type} (f : α → Option β) (xs : List α)
    (h : ∀ x ∈ xs, ∃ y, f x = some y) :
    ∃ ys, traverseOption f xs = some ys ∧ ys.length = xs.length := by
  induction xs with
  | nil => exact ⟨[], rfl, rfl⟩
  | cons x rest ih =>
    obtain ⟨y, hy⟩ := h x (by simp)
    obtain ⟨ys, hys, hlen⟩ := ih (fun z hz => h z (List.mem_cons_of_mem _ hz))
    exact ⟨y :: ys, by simp [traverseOption, hy, hys], by simp [hlen]⟩

theorem pyZip_cols_nonempty {α : Type} (rows : List (List α)) (hne : rows ≠ [])
    (hall : ∀ r ∈ rows, r ≠ []) :
    pyZip rows ≠ [] ∧ ∀ c ∈ pyZip rows, c ≠ [] := by
  cases rows with
  | nil => exact absurd rfl hne
  | cons r0 rest =>
    have hz : pyZip (r0 :: rest) =
        (List.range ((rest.map List.length).foldl min r0.length)).map
          (fun i => (r0 :: rest).filterMap (fun r => r.get? i)) := by
      simp [pyZip, List.min?]
    have hn_le : (rest.map List.length).foldl min r0.length ≤ r0.length :=
      foldl_min_le_init _ _
    have hn_pos : 0 < (rest.map List.length).foldl min r0.length := by
      rcases foldl_min_mem (rest.map List.length) r0.length with h | h
      · rw [h]; exact List.length_pos.mpr (hall r0 (by simp))
      · obtain ⟨r, hr, hlen⟩ := List.mem_map.mp h
        rw [← hlen]
        exact List.length_pos.mpr (hall r (List.mem_cons_of_mem _ hr))
    constructor
    · rw [hz]
      intro hcontra
      rw [List.map_eq_nil_iff, List.range_eq_nil] at hcontra
      omega
    · rw [hz]
      intro c hc
      obtain ⟨i, hi, hcol⟩ := List.mem_map.mp hc
      have hi' : i < r0.length := lt_of_lt_of_le (List.mem_range.mp hi) hn_le
      have hget : r0[i]? = some r0[i] := List.getElem?_eq_getElem hi'
      rw [← hcol]
      simp [List.filterMap_cons, hget]

theorem toDigitsCore_length_le (b : Nat) :
    ∀ (fuel n : Nat) (ds : List Char),
      ds.length ≤ (Nat.toDigitsCore b fuel n ds).length := by
  intro fuel
  induction fuel with
  | zero => intro n ds; simp [Nat.toDigitsCore]
  | succ f ih =>
    intro n ds
    by_cases h : n / b = 0
    · simp [Nat.toDigitsCore, h]
    · have heq : Nat.toDigitsCore b (f + 1) n ds
          = Nat.toDigitsCore b f (n / b) (Nat.digitChar (n % b) :: ds) := by
        simp [Nat.toDigitsCore, h]
      rw [heq]
      calc ds.length ≤ (Nat.digitChar (n % b) :: ds).length := by simp
      _ ≤ _ := ih _ _

theorem toDigits_ne_nil (b n : Nat) : Nat.toDigits b n ≠ [] := by
  unfold Nat.toDigits
  by_cases h : n / b = 0
  · simp [Nat.toDigitsCore, h]
  · have heq : Nat.toDigitsCore b (n + 1) n []
        = Nat.toDigitsCore b n (n / b) [Nat.digitChar (n % b)] := by
      simp [Nat.toDigitsCore, h]
    rw [heq]
    intro hcontra
    have h1 : (1 : Nat) ≤ (Nat.toDigitsCore b n (n / b) [Nat.digitChar (n % b)]).length := by
      calc (1 : Nat) = ([Nat.digitChar (n % b)] : List Char).length := rfl
      _ ≤ _ := toDigitsCore_length_le b n (n / b) _
    rw [hcontra] at h1
    simp at h1

theorem intStr_ne_nil (n : Int) : intStr n ≠ [] := by
  unfold intStr
  split
  · simp
  · exact toDigits_ne_nil 10 n.toNat

theorem intercalate_cons_ne_nil (sep p : List Char) (ps : List (List Char))
    (hp : p ≠ []) : List.intercalate sep (p :: ps) ≠ [] := by
  cases ps with
  | nil => simpa [List.intercalate] using hp
  | cons q qs =>
    simp [List.intercalate, List.intersperse]
    intro h
    exact absurd h hp

/-- The shared parse tail of `detect_crop` never raises: whatever the
subject text, it returns a crop string tagged with the path it was given. -/
theorem detect_crop_parse_ok (out : List Char) (path : CropPath) :
    ∃ c, detect_crop_parse out path = .ok (c, path) := by
  by_cases hemp : (findCrops out).isEmpty
  · exact ⟨"0:0:0:0".data, by simp [detect_crop_parse, hemp]⟩
  · have hcne : findCrops out ≠ [] := by
      cases hfc : findCrops out with
      | nil => rw [hfc] at hemp; exact absurd rfl hemp
      | cons a as => simp
    have hrne : (findCrops out).map
        (fun c => (splitColon c).map (fun d => (parseNat d : Int))) ≠ [] := by
      simpa using hcne
    have hrall : ∀ r ∈ (findCrops out).map
        (fun c => (splitColon c).map (fun d => (parseNat d : Int))), r ≠ [] := by
      intro r hr
      obtain ⟨c, _, hcr⟩ := List.mem_map.mp hr
      rw [← hcr]
      simpa using splitColon_ne_nil c
    obtain ⟨hzne, hcols⟩ := pyZip_cols_nonempty _ hrne hrall
    obtain ⟨mins, hmins, hlen⟩ := traverseOption_all_some non_zero_min _
      (fun col hc => non_zero_min_isSome col (hcols col hc))
    cases hm : mins with
    | nil =>
      rw [hm] at hlen
      exact absurd (List.length_eq_zero.mp hlen.symm) hzne
    | cons m0 mrest =>
      refine ⟨List.intercalate [':'] ((m0 :: mrest).map intStr), ?_⟩
      have hcropne : List.intercalate [':'] ((m0 :: mrest).map intStr) ≠ [] := by
        simp only [List.map_cons]
        exact intercalate_cons_ne_nil _ _ _ (intStr_ne_nil m0)
      have hcropemp : (List.intercalate [':'] ((m0 :: mrest).map intStr)).isEmpty = false := by
        cases hcc : List.intercalate [':'] ((m0 :: mrest).map intStr) with
        | nil => exact absurd hcc hcropne
        | cons a as => rfl
      rw [hm] at hmins
      have hcropne' : List.intercalate [':'] (intStr m0 :: List.map intStr mrest) ≠ [] := by
        simpa using hcropne
      simp [detect_crop_parse, hemp, reduce_crops, hmins, hcropemp, hcropne']

/-- C3: crop-tool outcome handling. (1) A failing tool whose captured
output still contains a rectangle token is handled by parsing that
captured output normally — the recovery path, whose result carries the
`recovered` tag, never the fallback; (2) a failing tool with no rectangle
token in the captured output yields `0:0:0:0` with no error raised;
(3) a succeeding tool whose output has no rectangle token also yields
`0:0:0:0`. -/
theorem detect_crop_outcomes (s out : List Char) :
    (findCrops s ≠ [] →
      detect_crop (.err s) = detect_crop_parse s .recovered ∧
      ∃ c, detect_crop (.err s) = .ok (c, .recovered)) ∧
    (findCrops s = [] → detect_crop (.err s) = .ok ("0:0:0:0".data, .fallback)) ∧
    (findCrops out = [] → detect_crop (.ok out) = .ok ("0:0:0:0".data, .normal)) := by
  refine ⟨?_, ?_, ?_⟩
  · intro h
    have hemp : (findCrops s).isEmpty = false := by
      cases hfc : findCrops s with
      | nil => exact absurd hfc h
      | cons a as => rfl
    constructor
    · simp [detect_crop, hemp]
    · obtain ⟨c, hc⟩ := detect_crop_parse_ok s .recovered
      exact ⟨c, by simp [detect_crop, hemp, hc]⟩
  · intro h
    simp [detect_crop, h]
  · intro h
    simp [detect_crop, detect_crop_parse, h]

/-- C3 witness: a failing tool with output `x 1:2:3:4` is parsed through
the recovery path; a failing tool with output `no tokens` falls back to
`0:0:0:0`; a succeeding tool with output `nothing` yields `0:0:0:0`. -/
theorem detect_crop_outcomes_witness :
    (detect_crop (.err "x 1:2:3:4".data) = detect_crop_parse "x 1:2:3:4".data .recovered ∧
      ∃ c, detect_crop (.err "x 1:2:3:4".data) = .ok (c, .recovered)) ∧
    detect_crop (.err "no tokens".data) = .ok ("0:0:0:0".data, .fallback) ∧
    detect_crop (.ok "nothing".data) = .ok ("0:0:0:0".data, .normal) :=
  ⟨(detect_crop_outcomes "x 1:2:3:4".data "nothing".data).1 (by decide),
   (detect_crop_outcomes "no tokens".data "nothing".data).2.1 (by decide),
   (detect_crop_outcomes "x 1:2:3:4".data "nothing".data).2.2 (by decide)⟩

/-- C6: classification of scan-tool outcomes. In probe mode every failure
yields the not-usable-media error regardless of output; outside probe
mode a failure whose captured output contains `unrecognized file type`
yields the unknown-media-type error and any other failure yields the
unknown-metadata error; a successful scan raises nothing and returns its
output. -/
theorem scan_media_classification (captured out : List Char) :
    (scan_media true (.err captured) = .error .notUsableMedia) ∧
    (containsSub "unrecognized file type".data captured = true →
      scan_media false (.err captured) = .error .unknownMediaType) ∧
    (containsSub "unrecognized file type".data captured = false →
      scan_media false (.err captured) = .error .unknownMetadataError) ∧
    (∀ t, scan_media t (.ok out) = .ok out) := by
  refine ⟨rfl, ?_, ?_, fun t => rfl⟩
  · intro h
    simp [scan_media, h]
  · intro h
    simp [scan_media, h]

/-- C6 witness: instantiation on a failure output containing the marker
and on one that does not. -/
theorem scan_media_classification_witness :
    containsSub "unrecognized file type".data "a: unrecognized file type b".data = true ∧
    scan_media false (.err "a: unrecognized file type b".data) = .error .unknownMediaType ∧
    containsSub "unrecognized file type".data "other failure".data = false ∧
    scan_media false (.err "other failure".data) = .error .unknownMetadataError :=
  ⟨by decide,
   (scan_media_classification "a: unrecognized file type b".data []).2.1 (by decide),
   by decide,
   (scan_media_classification "other failure".data []).2.2.1 (by decide)⟩

/-- C7 counterexample: with threshold 30, a file whose age is exactly 30
seconds (now 100, mtime 70) is rejected by the settle test, refuting the
claim that a file exactly `threshold` seconds old is eligible. -/
theorem file_settle_exact_threshold_not_eligible :
    (100 : ℚ) - 70 = 30 ∧ file_eligible 100 70 30 = false := by
  constructor
  · norm_num
  · have h : (100 : ℚ) - 70 ≤ 30 := by norm_num
    simp [file_eligible, file_settle_skip, h]

/-- C7 amended: a file is eligible exactly when it is strictly more than
`threshold` seconds old, and not eligible when its age is `threshold`
seconds or less; a file rejected by the settle test is skipped by the
discovery pass entirely. -/
theorem file_settle_window (now mtime threshold : ℚ) (f : FileEntry)
    (rest : List FileEntry) :
    (file_eligible now mtime threshold = true ↔ threshold < now - mtime) ∧
    (file_eligible now mtime threshold = false ↔ now - mtime ≤ threshold) ∧
    (file_settle_skip now f.mtime threshold = true →
      check_for_input now threshold (f :: rest) = check_for_input now threshold rest) := by
  refine ⟨?_, ?_, ?_⟩
  · simp only [file_eligible, file_settle_skip, Bool.not_eq_true',
      decide_eq_false_iff_not, not_le]
  · simp only [file_eligible, file_settle_skip, Bool.not_eq_false',
      decide_eq_true_eq]
  · intro h
    by_cases hdot : is_dotfile f.name
    · simp [check_for_input, hdot]
    · simp [check_for_input, hdot, h]

/-- C7 amended witness: threshold 30, a file 31 seconds old is eligible;
the skip branch instantiated on a 10-second-old file with threshold 30. -/
theorem file_settle_window_witness :
    file_eligible 101 70 30 = true ∧
    (check_for_input 100 30 [⟨"g".data, 90, .transcodeOk⟩] =
      check_for_input 100 30 []) := by
  constructor
  · exact (file_settle_window 101 70 30 ⟨"g".data, 90, .transcodeOk⟩ []).1.mpr (by norm_num)
  · exact (file_settle_window 100 (0 : ℚ) 30 ⟨"g".data, 90, .transcodeOk⟩ []).2.2
      (by simp only [file_settle_skip, decide_eq_true_eq]; norm_num)

/-- C10: every exit path of `execute` — clean exit, non-zero exit raising
`ChildProcessError`, or a spawn failure — passes through the `finally`
clause, so afterwards the tracked current-process field is `None` and a
subsequent `stop` request finds no process to terminate. -/
theorem execute_clears_current_proc (s : RunnerState) (command : List Char)
    (ev : ExecEvent) (running : Bool) :
    (execute s command ev).1.current_proc = none ∧
    stop_terminations running (execute s command ev).1 = [] := by
  constructor
  · rfl
  · cases running <;> rfl

/-! ## The per-edge crop reduction (claim C2) -/

theorem filterMap_get?_eq_map_getD (rows : List (List Int)) (i : Nat)
    (h : ∀ r ∈ rows, i < r.length) :
    rows.filterMap (fun r => r.get? i) = rows.map (fun r => r.getD i 0) := by
  induction rows with
  | nil => rfl
  | cons r rest ih =>
    have hi : i < r.length := h r (by simp)
    have hget : r.get? i = some (r.getD i 0) := by
      rw [List.getD_eq_getElem r 0 hi, List.get?_eq_getElem?,
        List.getElem?_eq_getElem hi]
    simp only [List.filterMap_cons, hget, List.map_cons]
    rw [ih (fun q hq => h q (List.mem_cons_of_mem _ hq))]

/-- `zip(*rows)` over a non-empty batch of 4-element rows is exactly the
four per-position columns. -/
theorem pyZip_four (rows : List (List Int)) (hne : rows ≠ [])
    (h4 : ∀ r ∈ rows, r.length = 4) :
    pyZip rows = [rows.map (fun r => r.getD 0 0), rows.map (fun r => r.getD 1 0),
      rows.map (fun r => r.getD 2 0), rows.map (fun r => r.getD 3 0)] := by
  cases rows with
  | nil => exact absurd rfl hne
  | cons r0 rest =>
    have hmin : ((r0 :: rest).map List.length).min? =
        some ((rest.map List.length).foldl min r0.length) := by
      simp [List.min?]
    have hfold : (rest.map List.length).foldl min r0.length = 4 := by
      rcases foldl_min_mem (rest.map List.length) r0.length with h | h
      · rw [h]; exact h4 r0 (by simp)
      · obtain ⟨r, hr, hlen⟩ := List.mem_map.mp h
        rw [← hlen]; exact h4 r (List.mem_cons_of_mem _ hr)
    have hlt : ∀ i, i < 4 → ∀ r ∈ r0 :: rest, i < r.length := by
      intro i hi r hr
      rw [h4 r hr]; exact hi
    simp only [pyZip, hmin, hfold]
    have hrange : List.range 4 = [0, 1, 2, 3] := rfl
    rw [hrange]
    simp only [List.map_cons, List.map_nil]
    rw [filterMap_get?_eq_map_getD _ 0 (hlt 0 (by omega)),
      filterMap_get?_eq_map_getD _ 1 (hlt 1 (by omega)),
      filterMap_get?_eq_map_getD _ 2 (hlt 2 (by omega)),
      filterMap_get?_eq_map_getD _ 3 (hlt 3 (by omega))]
    simp only [List.map_cons]

theorem traverseOption_cons_some {α β : Type} (f : α → Option β) (x : α)
    (xs : List α) (y : β) (ys : List β) (hx : f x = some y)
    (hxs : traverseOption f xs = some ys) :
    traverseOption f (x :: xs) = some (y :: ys) := by
  simp only [traverseOption, hx, hxs]

/-- What `non_zero_min` guarantees about one reduced edge value. -/
theorem non_zero_min_edge_spec (col : List Int) (m : Int)
    (hm : non_zero_min col = some m) :
    ((∃ v ∈ col, v ≠ 0) → m ∈ col ∧ m ≠ 0 ∧ ∀ v ∈ col, v ≠ 0 → m ≤ v) ∧
    ((∀ v ∈ col, v = 0) → m = 0) := by
  constructor
  · intro hex
    obtain ⟨m', hm', hmem, hnz, hle⟩ := (non_zero_min_char col).2.1 hex
    rw [hm] at hm'
    injection hm' with hmm
    subst hmm
    exact ⟨hmem, hnz, hle⟩
  · intro hall
    by_cases hcol : col = []
    · subst hcol
      exact absurd hm (by simp [non_zero_min])
    · have h0 := (non_zero_min_char col).2.2 hcol hall
      rw [hm] at h0
      simpa using h0

/-- C2: for every non-empty batch of crop rectangles, each given as the
four integers of one `N:N:N:N` token, the reduction used by the crop
detector produces exactly four values, and the value at each edge
position is the minimum of the non-zero entries at that position across
all rectangles, or `0` when every rectangle reports `0` there; in
particular the rectangles `0:10:0:20` and `5:10:3:0` reduce through the
full string pipeline to `5:10:3:20`. -/
theorem detect_crop_reduction (rows : List (List Int)) (hne : rows ≠ [])
    (h4 : ∀ r ∈ rows, r.length = 4) :
    (∃ ms, reduce_crops rows = some ms ∧ ms.length = 4 ∧
      ∀ i, i < 4 →
        ((∃ v ∈ rows.map (fun r => r.getD i 0), v ≠ 0) →
          ms.getD i 0 ∈ rows.map (fun r => r.getD i 0) ∧ ms.getD i 0 ≠ 0 ∧
          ∀ v ∈ rows.map (fun r => r.getD i 0), v ≠ 0 → ms.getD i 0 ≤ v) ∧
        ((∀ v ∈ rows.map (fun r => r.getD i 0), v = 0) → ms.getD i 0 = 0)) ∧
    detect_crop (.ok "0:10:0:20\n5:10:3:0".data) = .ok ("5:10:3:20".data, .normal) := by
  constructor
  · have hz := pyZip_four rows hne h4
    have hcne : ∀ i : Nat, rows.map (fun r => r.getD i 0) ≠ [] := by
      intro i hcontra
      rw [List.map_eq_nil_iff] at hcontra
      exact hne hcontra
    obtain ⟨m0, hm0⟩ := non_zero_min_isSome _ (hcne 0)
    obtain ⟨m1, hm1⟩ := non_zero_min_isSome _ (hcne 1)
    obtain ⟨m2, hm2⟩ := non_zero_min_isSome _ (hcne 2)
    obtain ⟨m3, hm3⟩ := non_zero_min_isSome _ (hcne 3)
    refine ⟨[m0, m1, m2, m3], ?_, rfl, ?_⟩
    · unfold reduce_crops
      rw [hz]
      exact traverseOption_cons_some _ _ _ _ _ hm0
        (traverseOption_cons_some _ _ _ _ _ hm1
          (traverseOption_cons_some _ _ _ _ _ hm2
            (traverseOption_cons_some _ _ _ _ _ hm3 rfl)))
    · intro i hi
      interval_cases i
      · exact non_zero_min_edge_spec _ m0 hm0
      · exact non_zero_min_edge_spec _ m1 hm1
      · exact non_zero_min_edge_spec _ m2 hm2
      · exact non_zero_min_edge_spec _ m3 hm3
  · rfl

/-- C2 witness: instantiation on the two rectangles of the worked
example, together with the concrete reduced value. -/
theorem detect_crop_reduction_witness :
    (∃ ms, reduce_crops [[(0 : Int), 10, 0, 20], [5, 10, 3, 0]] = some ms ∧
      ms.length = 4) ∧
    reduce_crops [[(0 : Int), 10, 0, 20], [5, 10, 3, 0]] = some [5, 10, 3, 20] := by
  constructor
  · obtain ⟨⟨ms, hms, hlen, -⟩, -⟩ :=
      detect_crop_reduction [[(0 : Int), 10, 0, 20], [5, 10, 3, 0]]
        (by decide) (by decide)
    exact ⟨ms, hms, hlen⟩
  · rfl

/-! ## The audio track selection loop (claims C4, C5) -/

theorem selectAux_true_eq_zip (streams : List AudioStream) (re : Bool) :
    ∀ (ts : List AudioTrack) (i : Nat), i + ts.length = streams.length →
      selectAux true streams re i ts =
        (ts.zip (streams.drop i)).filterMap (fun p =>
          if p.2.is_default then none
          else if re && !is_english_lang p.2.lang then none
          else some (mkDirective p.1.number
            (stripQuotes (if p.2.title.isEmpty then p.1.title else p.2.title)))) := by
  intro ts
  induction ts with
  | nil =>
    intro i h
    simp [selectAux]
  | cons t ts ih =>
    intro i h
    have hi : i < streams.length := by
      simp only [List.length_cons] at h
      omega
    have hdrop : streams.drop i = streams[i] :: streams.drop (i + 1) :=
      List.drop_eq_getElem_cons hi
    have hGD : streams.getD i ⟨[], [], false⟩ = streams[i] :=
      List.getD_eq_getElem streams _ hi
    have hrec := ih (i + 1) (by simp only [List.length_cons] at h; omega)
    by_cases hdef : streams[i].is_default = true
    · simp only [selectAux, hGD, hdef, if_true]
      rw [hrec, hdrop, List.zip_cons_cons, List.filterMap_cons]
      simp [hdef]
    · have hdef' : streams[i].is_default = false := by
        simpa using hdef
      by_cases heng : (re && !is_english_lang streams[i].lang) = true
      · simp only [selectAux, hGD, hdef', Bool.false_eq_true, if_false, heng,
          if_true]
        rw [hrec, hdrop, List.zip_cons_cons, List.filterMap_cons]
        simp [hdef', heng]
      · have heng' : (re && !is_english_lang streams[i].lang) = false := by
          simpa using heng
        simp only [selectAux, hGD, hdef', Bool.false_eq_true, if_false, heng']
        rw [hrec, hdrop, List.zip_cons_cons, List.filterMap_cons]
        simp [hdef', heng']

/-- C4: with equal-length stream and track lists, the selector pairs each
track with its same-index stream, drops tracks whose stream is marked
default, drops (when the English-only policy is on) tracks whose stream
language is not recognized as English — a stream without language
metadata counts as English — and emits for every remaining track a
directive carrying the stream title when non-empty (else the track-list
title) with double quotes stripped; in particular the worked example
(default stream plus French stream, policy on) yields no directives. -/
theorem parse_audio_tracks_equal_case (streams : List AudioStream)
    (tracks : List AudioTrack) (require_english : Bool)
    (h : streams.length = tracks.length) :
    (select_audio_tracks streams tracks require_english =
      (tracks.zip streams).filterMap (fun p =>
        if p.2.is_default then none
        else if require_english && !is_english_lang p.2.lang then none
        else some (mkDirective p.1.number
          (stripQuotes (if p.2.title.isEmpty then p.1.title else p.2.title))))) ∧
    is_english_lang [] = true ∧
    parse_audio_tracks [⟨[], [], true⟩, ⟨[], "fre".data, false⟩]
      [⟨"1".data, "A".data⟩, ⟨"2".data, "B".data⟩] true = [] := by
  refine ⟨?_, rfl, rfl⟩
  have hbeq : (streams.length == tracks.length) = true := by
    exact beq_iff_eq.mpr h
  have haux := selectAux_true_eq_zip streams require_english tracks 0 (by omega)
  rw [List.drop_zero] at haux
  simp only [select_audio_tracks, hbeq]
  exact haux

/-- C4 witness: the worked example instantiated — two equal-length lists,
policy on, no directives selected. -/
theorem parse_audio_tracks_equal_case_witness :
    select_audio_tracks [⟨[], [], true⟩, ⟨[], "fre".data, false⟩]
      [⟨"1".data, "A".data⟩, ⟨"2".data, "B".data⟩] true =
      (([⟨"1".data, "A".data⟩, ⟨"2".data, "B".data⟩] : List AudioTrack).zip
        ([⟨[], [], true⟩, ⟨[], "fre".data, false⟩] : List AudioStream)).filterMap
        (fun p =>
          if p.2.is_default then none
          else if true && !is_english_lang p.2.lang then none
          else some (mkDirective p.1.number
            (stripQuotes (if p.2.title.isEmpty then p.1.title else p.2.title)))) :=
  (parse_audio_tracks_equal_case [⟨[], [], true⟩, ⟨[], "fre".data, false⟩]
    [⟨"1".data, "A".data⟩, ⟨"2".data, "B".data⟩] true (by decide)).1

/-- C5 counterexample: stream list of length 1, track list of length 2
whose second title contains a double quote. The selector emits the
track-2 directive with the quote stripped, so the emitted directive is
not the one carrying the raw track-list title — the claim as stated
fails. -/
theorem select_audio_tracks_mismatch_counterexample :
    select_audio_tracks [⟨[], [], false⟩]
      [⟨"1".data, "A".data⟩, ⟨"2".data, ['B', '"']⟩] true =
      [mkDirective "2".data ['B']] ∧
    [mkDirective "2".data ['B']] ≠ [mkDirective "2".data ['B', '"']] := by
  exact ⟨rfl, by decide⟩

theorem selectAux_false_eq_map (streams : List AudioStream) (re : Bool) :
    ∀ (ts : List AudioTrack) (i : Nat), i ≠ 0 →
      selectAux false streams re i ts =
        ts.map (fun t => mkDirective t.number (stripQuotes t.title)) := by
  intro ts
  induction ts with
  | nil => intro i _; simp [selectAux]
  | cons t ts ih =>
    intro i hi
    have hbeq : (i == 0) = false := by
      simpa using hi
    simp only [selectAux, hbeq, Bool.false_eq_true, if_false, List.map_cons]
    rw [ih (i + 1) (by omega)]

/-- C5 amended: with stream and track lists of unequal length, the
selector skips the track at index 0 unconditionally and selects every
track at index 1 and beyond, each with its track-list title — with any
double-quote characters removed from that title (the quote stripping of
line 495 applies on this path too, which is the one correction to the
claim). -/
theorem select_audio_tracks_mismatch (streams : List AudioStream)
    (tracks : List AudioTrack) (require_english : Bool)
    (h : streams.length ≠ tracks.length) :
    select_audio_tracks streams tracks require_english =
      (tracks.drop 1).map (fun t => mkDirective t.number (stripQuotes t.title)) := by
  have hbeq : (streams.length == tracks.length) = false := by
    simpa using h
  simp only [select_audio_tracks, hbeq]
  cases tracks with
  | nil => simp [selectAux]
  | cons t ts =>
    have h0 : ((0 : Nat) == 0) = true := rfl
    simp only [selectAux, h0, if_true, List.drop_succ_cons, List.drop_zero]
    exact selectAux_false_eq_map streams require_english ts 1 (by omega)

/-- C5 amended witness: instantiation on the mismatched-length example;
track 1 is skipped, track 2 selected with its (quote-stripped) title. -/
theorem select_audio_tracks_mismatch_witness :
    select_audio_tracks [⟨[], [], false⟩]
      [⟨"1".data, "A".data⟩, ⟨"2".data, "B".data⟩] false =
      ([⟨"1".data, "A".data⟩, (⟨"2".data, "B".data⟩ : AudioTrack)].drop 1).map
        (fun t => mkDirective t.number (stripQuotes t.title)) :=
  select_audio_tracks_mismatch [⟨[], [], false⟩]
    [⟨"1".data, "A".data⟩, ⟨"2".data, "B".data⟩] false (by decide)

/-! ## The discovery pass return contract (claims C8, C9) -/

/-- C8 counterexample: a single eligible non-media file is processed to
its pass-through terminal location (moved to the output directory), yet
the pass returns `false`, refuting the claim that any terminal outcome —
including pass-through — causes a `true` return. -/
theorem check_for_input_passthrough_counterexample :
    check_for_input 100 1 [⟨"f".data, 0, .notMedia⟩] =
      (false, [.moveToOutput ⟨"f".data, 0, .notMedia⟩]) := by
  have h1 : is_dotfile "f".data = false := rfl
  have h2 : file_settle_skip 100 0 1 = false := by
    simp only [file_settle_skip, decide_eq_false_iff_not]
    norm_num
  simp [check_for_input, h1, h2]

/-- C8 amended: one discovery pass returns `true` exactly when some
eligible file passes the media probe (the first such file, since the pass
stops there) and its processing ends in transcode success or in a failure
handled while the daemon flag is still running; non-media files are moved
to the output location but the pass keeps scanning, and a failure observed
after a stop request makes the pass return `false`. -/
theorem check_for_input_return_iff (now threshold : ℚ) (files : List FileEntry) :
    (check_for_input now threshold files).1 = true ↔
      ∃ f, files.find? (media_candidate now threshold) = some f ∧
        outcome_returns_true f.outcome = true := by
  induction files with
  | nil => simp [check_for_input]
  | cons f rest ih =>
    by_cases hdot : is_dotfile f.name = true
    · have hmc : media_candidate now threshold f = false := by
        simp [media_candidate, hdot]
      simp [check_for_input, hdot, hmc, ih]
    · have hdot' : is_dotfile f.name = false := by simpa using hdot
      by_cases hskip : file_settle_skip now f.mtime threshold = true
      · have hmc : media_candidate now threshold f = false := by
          simp [media_candidate, hskip]
        simp [check_for_input, hdot', hskip, hmc, ih]
      · have hskip' : file_settle_skip now f.mtime threshold = false := by
          simpa using hskip
        cases ho : f.outcome with
        | notMedia =>
          have hmc : media_candidate now threshold f = false := by
            simp [media_candidate, probe_passes, ho]
          simp [check_for_input, hdot', hskip', ho, hmc, ih]
        | transcodeOk =>
          have hmc : media_candidate now threshold f = true := by
            simp [media_candidate, probe_passes, ho, hdot', hskip']
          simp [check_for_input, hdot', hskip', ho, hmc, outcome_returns_true]
        | transcodeError running =>
          have hmc : media_candidate now threshold f = true := by
            simp [media_candidate, probe_passes, ho, hdot', hskip']
          cases running with
          | true =>
            simp [check_for_input, hdot', hskip', ho, hmc, outcome_returns_true]
          | false =>
            simp [check_for_input, hdot', hskip', ho, hmc, outcome_returns_true]
        | otherError running =>
          have hmc : media_candidate now threshold f = true := by
            simp [media_candidate, probe_passes, ho, hdot', hskip']
          cases running with
          | true =>
            simp [check_for_input, hdot', hskip', ho, hmc, outcome_returns_true]
          | false =>
            simp [check_for_input, hdot', hskip', ho, hmc, outcome_returns_true]

/-- C9: behaviour of the pass at the media file it processes (the first
eligible probe-passing file). If the failure handler observes the daemon
flag down (a deliberate halt), no relocation touches that file — it is
left in place and the pass returns `false`. If the handler observes the
flag up, a `TranscodeError` or any other exception makes the pass move
the file to the failed-originals location and return normally with
`true` — the error never escapes the pass. -/
theorem halt_vs_failure_relocation (now threshold : ℚ) (files : List FileEntry)
    (f : FileEntry)
    (hfind : files.find? (media_candidate now threshold) = some f) :
    ((f.outcome = .transcodeError false ∨ f.outcome = .otherError false) →
      (∀ a ∈ (check_for_input now threshold files).2, a.file ≠ f) ∧
      (check_for_input now threshold files).1 = false) ∧
    ((f.outcome = .transcodeError true ∨ f.outcome = .otherError true) →
      FileAction.moveToFailed f ∈ (check_for_input now threshold files).2 ∧
      (check_for_input now threshold files).1 = true) := by
  induction files with
  | nil => exact absurd hfind (by simp)
  | cons g rest ih =>
    by_cases hmc : media_candidate now threshold g = true
    · have hfg : f = g := by
        rw [List.find?_cons_of_pos _ hmc] at hfind
        exact (Option.some.inj hfind).symm
      subst hfg
      have hparts : is_dotfile f.name = false ∧
          file_settle_skip now f.mtime threshold = false := by
        simp only [media_candidate, Bool.and_eq_true, Bool.not_eq_true'] at hmc
        exact ⟨hmc.1.1, hmc.1.2⟩
      obtain ⟨hdot, hskip⟩ := hparts
      constructor
      · rintro (ho | ho) <;> simp [check_for_input, hdot, hskip, ho]
      · rintro (ho | ho) <;> simp [check_for_input, hdot, hskip, ho]
    · have hmc' : media_candidate now threshold g = false := by simpa using hmc
      rw [List.find?_cons_of_neg _ (by simp [hmc'])] at hfind
      have ihh := ih hfind
      by_cases hdot : is_dotfile g.name = true
      · simpa [check_for_input, hdot] using ihh
      · have hdot' : is_dotfile g.name = false := by simpa using hdot
        by_cases hskip : file_settle_skip now g.mtime threshold = true
        · simpa [check_for_input, hdot', hskip] using ihh
        · have hskip' : file_settle_skip now g.mtime threshold = false := by
            simpa using hskip
          have hnm : g.outcome = .notMedia := by
            cases hgo : g.outcome with
            | notMedia => rfl
            | transcodeOk =>
              rw [media_candidate, hdot', hskip', hgo] at hmc'
              simpa [probe_passes] using hmc'
            | transcodeError running =>
              rw [media_candidate, hdot', hskip', hgo] at hmc'
              simpa [probe_passes] using hmc'
            | otherError running =>
              rw [media_candidate, hdot', hskip', hgo] at hmc'
              simpa [probe_passes] using hmc'
          have hgf : g ≠ f := by
            intro hcontra
            subst hcontra
            rcases ihh with ⟨h1, h2⟩
            -- f also appears in the recursion with a media outcome; but here
            -- we only need that its outcome cannot be notMedia
            have := List.find?_some hfind
            rw [media_candidate, hnm] at this
            simpa [probe_passes] using this
          constructor
          · intro ho
            obtain ⟨hacts, hres⟩ := ihh.1 ho
            constructor
            · intro a ha
              simp only [check_for_input, hdot', hskip', hnm, Bool.false_eq_true,
                if_false, List.mem_cons] at ha
              rcases ha with rfl | ha
              · simpa [FileAction.file] using hgf
              · exact hacts a ha
            · simp [check_for_input, hdot', hskip', hnm, hres]
          · intro ho
            obtain ⟨hmem, hres⟩ := ihh.2 ho
            constructor
            · simp [check_for_input, hdot', hskip', hnm, hmem]
            · simp [check_for_input, hdot', hskip', hnm, hres]

/-- C9 witness: a single eligible media file failing with the daemon
still running is moved to the failed-originals location and the pass
returns `true`. -/
theorem halt_vs_failure_relocation_witness :
    FileAction.moveToFailed ⟨"b".data, 0, .transcodeError true⟩ ∈
      (check_for_input 100 1 [⟨"b".data, 0, .transcodeError true⟩]).2 ∧
    (check_for_input 100 1 [⟨"b".data, 0, .transcodeError true⟩]).1 = true := by
  have hdot : is_dotfile "b".data = false := rfl
  have hsk : file_settle_skip 100 0 1 = false := by
    simp only [file_settle_skip, decide_eq_false_iff_not]
    norm_num
  have hmc : media_candidate 100 1 ⟨"b".data, 0, .transcodeError true⟩ = true := by
    simp [media_candidate, hdot, hsk, probe_passes]
  exact (halt_vs_failure_relocation 100 1 [⟨"b".data, 0, .transcodeError true⟩]
    ⟨"b".data, 0, .transcodeError true⟩
    (by rw [List.find?_cons_of_pos _ hmc])).2 (Or.inl rfl)
